import Mathlib

/-!
Verification development for the genetic-algorithm reactor optimizer
(`src/main.py`).  The program evolves a population of 3×3×3 integer grids.
We shallowly embed the source: numpy arrays of shape (3,3,3) become
functions `Fin 27 → ℤ` in row-major (C) order, Python floats become real
numbers, the mutable fitness-cache dict becomes an association list that is
threaded through calls, and every random draw (numpy `rand`, `randint`,
`choice`, `argsort` tie order) is externalized as an explicit parameter, so
theorems quantify over all possible outcomes.  The external collaborators
`reactor_metrics`, `is_array_valid` and `validate_array` (imported by the
source from other modules) are modelled as oracle parameters.
-/

namespace NCReactor

/-- Constant `POPULATION_SIZE = 256` (src/main.py line 20). -/
def POPULATION_SIZE : ℕ := 256

/-- Constant `GENERATIONS = 200` (line 22). -/
def GENERATIONS : ℕ := 200

/-- Constant `INITIAL_MUTATION_RATE = 0.1` (line 23). -/
noncomputable def INITIAL_MUTATION_RATE : ℝ := 1 / 10

/-- Constant `MUTATION_DECAY_RATE = 0.99` (line 24). -/
noncomputable def MUTATION_DECAY_RATE : ℝ := 99 / 100

/-- Constant `ELITE_SIZE = 10` (line 25). -/
def ELITE_SIZE : ℕ := 10

/-- Constant `TOURNAMENT_SIZE_BASE = 100` (line 26). -/
def TOURNAMENT_SIZE_BASE : ℕ := 100

/-- Constant `TOURNAMENT_SIZE_FACTOR = 0.99` (line 27). -/
noncomputable def TOURNAMENT_SIZE_FACTOR : ℝ := 99 / 100

/-- Value of `np.prod(SIZE)` for `SIZE = (3, 3, 3)` (line 21): the number of cells. -/
def totalCells : ℕ := 27

/-- A reactor grid: a 3×3×3 numpy integer array, flattened in row-major
order.  Cell `(x, y, z)` lives at flat index `9*x + 3*y + z`. -/
abbrev Grid := Fin 27 → ℤ

/-- The all-zero grid `np.zeros(SIZE)` used by `initialize_population`. -/
def zeroGrid : Grid := fun _ => 0

/-- Embedding of `array.flat`: the row-major flattened value sequence of a grid. -/
def flat (g : Grid) : List ℤ := List.ofFn g

/-- Embedding of `.reshape(REACTOR_DIMENSIONS)`: rebuild a grid from a flat list
(row-major).  Out-of-range reads default to 0; every use in the source
reshapes a list of exactly 27 values. -/
def reshape (l : List ℤ) : Grid := fun i => l.getD i.1 0

/-- The index permutation realizing `np.flip(array, axis=a)` on flat
indices: coordinate `a` of the cell is reversed (`c ↦ 2 - c`). -/
def flipIdx : Fin 3 → Fin 27 → Fin 27
  | ⟨0, _⟩, i => ⟨9 * (2 - i.1 / 9) + i.1 % 9, by omega⟩
  | ⟨1, _⟩, i => ⟨9 * (i.1 / 9) + 3 * (2 - i.1 / 3 % 3) + i.1 % 3, by omega⟩
  | ⟨2, _⟩, i => ⟨9 * (i.1 / 9) + 3 * (i.1 / 3 % 3) + (2 - i.1 % 3), by omega⟩

/-- Embedding of `np.flip(array, axis=a)`: the grid mirrored along axis `a`. -/
def npFlip (a : Fin 3) (g : Grid) : Grid := fun i => g (flipIdx a i)

/-- Embedding of `np.abs(array - reversed_array).sum()`: the L1 distance of two grids. -/
def l1diff (g h : Grid) : ℤ := ∑ i : Fin 27, |g i - h i|

/-- Function `calculate_symmetry_reward` (lines 74-81): one `exp(-diff)` term per
spatial axis. -/
noncomputable def calculate_symmetry_reward (g : Grid) : ℝ :=
  ∑ a : Fin 3, Real.exp (-((l1diff g (npFlip a g) : ℤ) : ℝ))

/-- Embedding of `len(np.unique(array))`: the number of distinct cell values. -/
def uniqueCount (g : Grid) : ℕ := (Finset.univ.image g).card

/-- Function `calculate_diversity_penalty` (lines 83-86):
`(max_possible_unique - unique_elements) / max_possible_unique`. -/
noncomputable def calculate_diversity_penalty (g : Grid) : ℝ :=
  ((totalCells : ℝ) - (uniqueCount g : ℝ)) / (totalCells : ℝ)

/-- Function `calculate_heat_penalty` (lines 88-92). -/
noncomputable def calculate_heat_penalty (heat_diff : ℝ) : ℝ :=
  if heat_diff > 0 then -100 * heat_diff else heat_diff * -1

/-- The named numeric fields returned by the external simulator
`reactor_metrics(individual, fuel)` that `fitness` reads. -/
structure Metrics where
  energy_gen : ℝ
  heat_gen : ℝ
  heat_diff : ℝ
  efficiency : ℝ

/-- The external collaborators used by the core, as pure oracles:
`reactor_metrics` (with the run-constant fuel identifier baked in),
the boolean validity predicate `is_array_valid`, and `validate_ok g`,
which is true iff `validate_array g` does not raise. -/
structure Oracles where
  reactor_metrics : Grid → Metrics
  is_array_valid : Grid → Bool
  validate_ok : Grid → Bool

/-- Embedding of `tuple(individual.flat)` (line 49): the canonical cache key of a grid. -/
def keyOf (g : Grid) : List ℤ := flat g

/-- The `fitness_cache` dict, as an association list (most recent insert
first). -/
abbrev Cache := List (List ℤ × ℝ)

/-- Dictionary lookup `fitness_cache[key]` / `key in fitness_cache`. -/
def lookupC : Cache → List ℤ → Option ℝ
  | [], _ => none
  | (k, v) :: t, k2 => if k2 = k then some v else lookupC t k2

/-- Result of one `fitness` call: the returned score, the cache afterwards,
and whether the external simulator `reactor_metrics` was invoked. -/
structure FitResult where
  score : ℝ
  cache : Cache
  simCalled : Bool

/-- The composite score computed by `fitness` (lines 59-69) for a grid that
is valid and missed the cache:
`0.9*energy + 0.3*heat + heat_penalty + 1.5*(efficiency/100)`, then
`+= symmetry_reward * 2`, then `-= diversity_penalty * 5`. -/
noncomputable def rawScore (O : Oracles) (g : Grid) : ℝ :=
  let m := O.reactor_metrics g
  let heat_penalty := calculate_heat_penalty m.heat_diff
  let base := 0.9 * m.energy_gen + 0.3 * m.heat_gen + heat_penalty +
    1.5 * (m.efficiency / 100)
  base + calculate_symmetry_reward g * 2 - calculate_diversity_penalty g * 5

/-- Function `fitness(individual, fuel)` (lines 48-72).  On a cache hit the stored
score is returned and the simulator is not invoked.  On a miss the
simulator is invoked (`metrics = reactor_metrics(...)` runs before the
validity test), then: an invalid grid stores and returns 0, a valid grid
stores and returns the composite score. -/
noncomputable def fitness (O : Oracles) (g : Grid) (c : Cache) : FitResult :=
  match lookupC c (keyOf g) with
  | some v => ⟨v, c, false⟩
  | none =>
    if O.is_array_valid g then
      ⟨rawScore O g, (keyOf g, rawScore O g) :: c, true⟩
    else ⟨0, (keyOf g, 0) :: c, true⟩

/-- The cache-free value of `fitness`: what a fresh evaluation computes. -/
noncomputable def fitnessPure (O : Oracles) (g : Grid) : ℝ :=
  if O.is_array_valid g then rawScore O g else 0

/-- Every value stored in the cache is the score `fitness` itself computes
for its key — true of every cache state the program can reach, since the
cache starts empty and is written only by `fitness`. -/
def cacheCorrect (O : Oracles) (c : Cache) : Prop :=
  ∀ g v, lookupC c (keyOf g) = some v → v = fitnessPure O g

/-- Embedding of `np.argmax`: index of the first occurrence of the maximum of a list
(0 for the empty list). -/
def argmaxList {α : Type} [LinearOrder α] : List α → ℕ
  | [] => 0
  | x :: xs => if x < xs.getD (argmaxList xs) x then argmaxList xs + 1 else 0

/-- The selection part of `tournament_selection` (lines 97-99): given the
drawn indices, `np.argmax(fitnesses[selected])` picks the position of the
first maximum inside the drawn sequence, and the member at the
corresponding population index is returned. -/
def tournamentCore {α : Type} [LinearOrder α] [Inhabited α]
    (pop : List Grid) (fits : List α) (draws : List ℕ) : Grid :=
  let vals := draws.map fun j => fits.getD j default
  pop.getD (draws.getD (argmaxList vals) 0) zeroGrid

/-- Function `tournament_selection(population, fitnesses, tournament_size)`
(lines 94-99).  `np.random.choice(len(population), size=k, replace=False)`
raises a ValueError when `k` exceeds the population size (modelled as
`none`); its outcome — `k` distinct indices in random order — is the
`draws` parameter. -/
def tournament_selection {α : Type} [LinearOrder α] [Inhabited α]
    (pop : List Grid) (fits : List α) (k : ℕ) (draws : List ℕ) : Option Grid :=
  if k ≤ pop.length then some (tournamentCore pop fits draws) else none

/-- Function `crossover(parent1, parent2)` (lines 101-104) at cut point `point`:
`np.concatenate((parent1.flat[:point], parent2.flat[point:])).reshape(...)`.
The cut point is drawn by `np.random.randint(1, 27)` and is externalized
as the parameter `p`. -/
def crossover (p : ℕ) (parent1 parent2 : Grid) : Grid :=
  reshape ((flat parent1).take p ++ (flat parent2).drop p)

/-- The support of the crossover cut-point draw
`np.random.randint(1, np.prod(REACTOR_DIMENSIONS))`: `1 ≤ p ≤ 26`. -/
def crossPointAdmissible (p : ℕ) : Prop := 1 ≤ p ∧ p ≤ totalCells - 1

/-- The number of masked cells strictly before flat position `i`: numpy's
fancy assignment `individual[mask] = draws` writes `draws` into the masked
positions in row-major order, so position `i` receives draw number
`rankOf rate rand i`. -/
def rankOf {R : Type} [LinearOrder R] (rate : R) (rand : Fin 27 → R)
    (i : Fin 27) : ℕ :=
  (Finset.univ.filter fun j : Fin 27 => rand j < rate ∧ j.1 < i.1).card

/-- Function `mutate(individual, mutation_rate)` (lines 106-109).
`mask = np.random.rand(*shape) < rate` (the `rand` outcomes are the
parameter `rand`), then `individual[mask] = np.random.randint(1, 17, ...)`
(the randint stream is `draws`), then `return individual`.  The assignment
is IN PLACE: the function writes through the mask into its argument array
and returns that same array.  We model the call as a pair
(returned grid, contents of the argument after the call); the two
components coincide because no copy is made. -/
def mutate {R : Type} [LinearOrder R] (g : Grid) (rate : R)
    (rand : Fin 27 → R) (draws : ℕ → ℤ) : Grid × Grid :=
  let res : Grid := fun i =>
    if rand i < rate then draws (rankOf rate rand i) else g i
  (res, res)

/-- The per-generation mutation-rate schedule (lines 113, 144-146):
start at `INITIAL_MUTATION_RATE`; after each generation, multiply by
`MUTATION_DECAY_RATE` if the rate is above `0.02`, else leave unchanged.
`mutationRate n` is the rate after `n` generations. -/
noncomputable def mutationRate : ℕ → ℝ
  | 0 => INITIAL_MUTATION_RATE
  | n + 1 =>
    if mutationRate n > 1 / 50 then mutationRate n * MUTATION_DECAY_RATE
    else mutationRate n

/-- Schedule `tournament_size = max(int(TOURNAMENT_SIZE_BASE *
(TOURNAMENT_SIZE_FACTOR ** generation)), 2)` (line 127).  `int` truncation
of a nonnegative float is the floor. -/
noncomputable def tournamentSize (gen : ℕ) : ℕ :=
  max (⌊(TOURNAMENT_SIZE_BASE : ℝ) * TOURNAMENT_SIZE_FACTOR ^ gen⌋.toNat) 2

/-- Function `initialize_population(size)` (lines 41-43): `size` references to the
all-zero grid. -/
def initialize_population (n : ℕ) : List Grid := List.replicate n zeroGrid

/-- All random outcomes consumed by one generation of the loop:
the `np.argsort(fitnesses)` output (a permutation of indices arranged so
the fitnesses are non-decreasing; ties are ordered arbitrarily by the
unstable sort), the two tournament draws and the crossover point and
mutation randomness for each bred child `t`, and the `generate_array()`
outcome used if child `t` is replaced. -/
structure GenRand where
  sortIdx : List ℕ
  draws1 : ℕ → List ℕ
  draws2 : ℕ → List ℕ
  crossPt : ℕ → ℕ
  mutRand : ℕ → Fin 27 → ℝ
  mutDraw : ℕ → ℕ → ℤ
  regen : ℕ → Grid

/-- The loop state of `genetic_algorithm`: the current population, the
shared fitness cache, the mutation rate, the most recently computed
fitness vector (the Python variable `fitnesses`, which survives the loop),
and the generation counter. -/
structure GAState where
  pop : List Grid
  cache : Cache
  rate : ℝ
  lastFits : List ℝ
  gen : ℕ

/-- Embedding of `lst[-k:]`: the last `k` elements. -/
def lastK {α : Type} (k : ℕ) (l : List α) : List α := l.drop (l.length - k)

/-- The EVALUATE phase (lines 117-120): one `fitness` call per member, the
results collected by original index.  The thread pool shares the cache;
we model the evaluations sequentially in index order. -/
noncomputable def evalPop (O : Oracles) : List Grid → Cache → List ℝ × Cache
  | [], c => ([], c)
  | g :: t, c =>
    let r := fitness O g c
    let rest := evalPop O t r.cache
    (r.score :: rest.1, rest.2)

/-- Lines 122-123, `elite_indices = np.argsort(fitnesses)[-ELITE_SIZE:]` and
`elites = [population[i] for i in elite_indices]` (lines 122-123). -/
def selectElites (pop : List Grid) (sortIdx : List ℕ) : List Grid :=
  (lastK ELITE_SIZE sortIdx).map fun i => pop.getD i zeroGrid

/-- The loop body of lines 128-140 for child slot `t`: two tournament
selections, crossover, mutation; if `validate_array` raises on the mutated
child it is replaced by a fresh `generate_array()` grid (the `regen`
outcome).  The tournament guard never fires in a run since
`tournament_size ≤ 100 < 256`. -/
noncomputable def breedChild (O : Oracles) (R : GenRand) (gen : ℕ)
    (rate : ℝ) (pop : List Grid) (fits : List ℝ) (t : ℕ) : Grid :=
  let p1 := (tournament_selection pop fits (tournamentSize gen)
    (R.draws1 t)).getD zeroGrid
  let p2 := (tournament_selection pop fits (tournamentSize gen)
    (R.draws2 t)).getD zeroGrid
  let c0 := crossover (R.crossPt t) p1 p2
  let c1 := (mutate c0 rate (R.mutRand t) (R.mutDraw t)).1
  if O.validate_ok c1 then c1 else R.regen t

/-- Lines 126-140: the next population, formed as the elites followed by
`POPULATION_SIZE - ELITE_SIZE` bred children. -/
noncomputable def breed (O : Oracles) (R : GenRand) (gen : ℕ) (rate : ℝ)
    (pop : List Grid) (fits : List ℝ) : List Grid :=
  selectElites pop R.sortIdx ++
    (List.range (POPULATION_SIZE - ELITE_SIZE)).map
      (breedChild O R gen rate pop fits)

/-- One iteration of the `for generation in range(GENERATIONS)` loop
(lines 115-150): evaluate, breed the next population, decay the mutation
rate, advance the generation counter, remember the fitness vector. -/
noncomputable def gaStep (O : Oracles) (R : GenRand) (st : GAState) : GAState :=
  let er := evalPop O st.pop st.cache
  { pop := breed O R st.gen st.rate st.pop er.1
    cache := er.2
    rate :=
      if st.rate > 1 / 50 then st.rate * MUTATION_DECAY_RATE else st.rate
    lastFits := er.1
    gen := st.gen + 1 }

/-- Runs `n` iterations of the loop, consuming the per-generation randomness
stream `Rs` (indexed by the generation counter). -/
noncomputable def gaLoop (O : Oracles) (Rs : ℕ → GenRand) :
    ℕ → GAState → GAState
  | 0, st => st
  | n + 1, st => gaLoop O Rs n (gaStep O (Rs st.gen) st)

/-- The state before the first generation (lines 112-113). -/
noncomputable def initState : GAState :=
  ⟨initialize_population POPULATION_SIZE, [], INITIAL_MUTATION_RATE, [], 0⟩

/-- Function `genetic_algorithm()` (lines 111-157).  After the loop,
`best_index = np.argmax(fitnesses)` — the fitness vector computed at the
START of the last iteration — is used to index the CURRENT population (the
one bred at the END of the last iteration); if `is_array_valid` accepts
that member it is returned together with `fitnesses[best_index]`,
otherwise a fresh `generate_array()` grid (the `finalRegen` outcome) is
returned with fitness 0. -/
noncomputable def genetic_algorithm (O : Oracles) (Rs : ℕ → GenRand)
    (finalRegen : Grid) : Grid × ℝ :=
  if O.is_array_valid ((gaLoop O Rs GENERATIONS initState).pop.getD
      (argmaxList (gaLoop O Rs GENERATIONS initState).lastFits) zeroGrid) then
    ((gaLoop O Rs GENERATIONS initState).pop.getD
        (argmaxList (gaLoop O Rs GENERATIONS initState).lastFits) zeroGrid,
      (gaLoop O Rs GENERATIONS initState).lastFits.getD
        (argmaxList (gaLoop O Rs GENERATIONS initState).lastFits) 0)
  else (finalRegen, 0)

/-- The all-ones grid (every cell the fuel-cell code 1): mirror-symmetric
along every axis, and an admissible outcome of `np.random.randint(1, 17)`
mutation draws. -/
def oneGrid : Grid := fun _ => 1

/-- Concrete external oracles for the terminal-misalignment run: the
simulator reports `energy_gen = 10` for the all-ones grid and all-zero
metrics otherwise; validity always holds and `validate_array` never
raises. -/
noncomputable def scOracles : Oracles :=
  { reactor_metrics := fun g =>
      if g = oneGrid then ⟨10, 0, 0, 0⟩ else ⟨0, 0, 0, 0⟩
    is_array_valid := fun _ => true
    validate_ok := fun _ => true }

/-- Quiet randomness for generation `g`: `argsort` returns `0..255` (valid
for a constant fitness vector), tournament draws are `0, ..., k-1` with
`k = tournament_size`, the crossover point is 1, every `np.random.rand`
cell draw is 0.5 (so no cell mutates while the rate is ≤ 0.1), every
mutation value draw is 1, regenerated grids are all-zero. -/
noncomputable def scQuiet (g : ℕ) : GenRand :=
  { sortIdx := List.range 256
    draws1 := fun _ => List.range (tournamentSize g)
    draws2 := fun _ => List.range (tournamentSize g)
    crossPt := fun _ => 1
    mutRand := fun _ _ => 1 / 2
    mutDraw := fun _ _ => 1
    regen := fun _ => zeroGrid }

/-- Generation 198 randomness: as quiet, except that for the first bred
child every `np.random.rand` draw is 0.0, so every cell of that child
mutates — with value draws all 1 the child becomes the all-ones grid. -/
noncomputable def scInject : GenRand :=
  { scQuiet 198 with
    mutRand := fun t => if t = 0 then fun _ => 0 else fun _ => 1 / 2 }

/-- The `argsort` outcome for the final generation's fitness vector
(all-zero population except the all-ones grid at index 10, which scores
strictly higher): every other index in order, then index 10. -/
def sigmaLast : List ℕ := (List.range 10 ++ List.range' 11 245) ++ [10]

/-- The final generation's tournament draw: `tournament_size` at
generation 199 is `max(int(100 * 0.99^199), 2) = 13`, and the draw is the
13 distinct indices `0..9, 11, 12, 13` — avoiding index 10. -/
def drawsLast : List ℕ := List.range 10 ++ [11, 12, 13]

/-- Generation 199 randomness: quiet, but with the realizable `argsort`
outcome `sigmaLast` and tournament draws `drawsLast`. -/
noncomputable def scLast : GenRand :=
  { scQuiet 199 with
    sortIdx := sigmaLast
    draws1 := fun _ => drawsLast
    draws2 := fun _ => drawsLast }

/-- The full randomness stream of the terminal-misalignment run. -/
noncomputable def scRs : ℕ → GenRand := fun g =>
  if g = 198 then scInject else if g = 199 then scLast else scQuiet g

/-- Loop invariant of the misalignment run through generation 198: the
population is still all-zero, the cache is correct, the mutation rate sits
in `[0.99*0.02, 0.1]`, and the generation counter agrees. -/
def scInv (k : ℕ) (st : GAState) : Prop :=
  st.pop = List.replicate 256 zeroGrid ∧ cacheCorrect scOracles st.cache ∧
    99 / 5000 ≤ st.rate ∧ st.rate ≤ 1 / 10 ∧ st.gen = k

/-- The population entering the final generation of the misalignment run:
all-zero except the all-ones grid at index 10. -/
def popFinal : List Grid :=
  List.replicate 10 zeroGrid ++ oneGrid :: List.replicate 245 zeroGrid

/-- The fitness vector of `popFinal` under `scOracles`. -/
noncomputable def fitsFinal : List ℝ :=
  List.replicate 10 (32 / 27) ++ (275 / 27 : ℝ) :: List.replicate 245 (32 / 27)

/-! ### List access helpers -/

theorem getD_default_irrel {α : Type} (l : List α) (d1 d2 : α) (i : ℕ)
    (h : i < l.length) : l.getD i d1 = l.getD i d2 := by
  rw [List.getD_eq_getElem?_getD, List.getD_eq_getElem?_getD,
    List.getElem?_eq_getElem h]
  rfl

theorem getD_replicate_self {α : Type} :
    ∀ (n i : ℕ) (a : α), (List.replicate n a).getD i a = a
  | 0, _, _ => rfl
  | _ + 1, 0, _ => rfl
  | n + 1, i + 1, a => getD_replicate_self n i a

theorem getD_replicate {α : Type} {n i : ℕ} (a d : α) (h : i < n) :
    (List.replicate n a).getD i d = a := by
  have hl : i < (List.replicate n a).length := by simpa using h
  rw [getD_default_irrel _ _ a _ hl, getD_replicate_self]

theorem getD_ofFn {α : Type} {n : ℕ} (f : Fin n → α) (d : α) (i : ℕ)
    (h : i < n) : (List.ofFn f).getD i d = f ⟨i, h⟩ := by
  have hl : i < (List.ofFn f).length := by simpa using h
  rw [List.getD_eq_getElem?_getD, List.getElem?_eq_getElem hl]
  simp

/-! ### Flatten / reshape -/

theorem length_flat (g : Grid) : (flat g).length = 27 := by
  simp [flat]

theorem reshape_flat (g : Grid) : reshape (flat g) = g := by
  funext i
  simp only [reshape, flat]
  rw [getD_ofFn g 0 i.1 i.2]

theorem flat_reshape (l : List ℤ) (h : l.length = 27) :
    flat (reshape l) = l := by
  apply List.ext_getElem
  · simp [flat, h]
  · intro i h1 h2
    have hi : i < 27 := by simpa [flat] using h1
    have heq : (flat (reshape l)).getD i 0 = l.getD i 0 := by
      simp only [flat]
      rw [getD_ofFn (reshape l) 0 i hi]
      simp [reshape]
    rwa [List.getD_eq_getElem?_getD, List.getD_eq_getElem?_getD,
      List.getElem?_eq_getElem h1, List.getElem?_eq_getElem h2] at heq

theorem keyOf_inj {g1 g2 : Grid} (h : keyOf g1 = keyOf g2) : g1 = g2 := by
  have := congrArg reshape h
  rwa [keyOf, keyOf, reshape_flat, reshape_flat] at this

/-! ### Crossover -/

theorem crossover_apply (p : ℕ) (A B : Grid) (i : Fin 27) :
    crossover p A B i = if i.1 < p then A i else B i := by
  show ((flat A).take p ++ (flat B).drop p).getD i.1 0 = _
  by_cases h : i.1 < p
  · have hlen : i.1 < ((flat A).take p).length := by
      simp only [List.length_take, length_flat]
      exact lt_min h i.2
    rw [if_pos h, List.getD_append _ _ _ _ hlen, List.getD_eq_getElem?_getD,
      List.getElem?_take, if_pos h, ← List.getD_eq_getElem?_getD]
    simp only [flat]
    rw [getD_ofFn A 0 i.1 i.2]
  · push_neg at h
    have hlenl : ((flat A).take p).length = p := by
      simp only [List.length_take, length_flat]
      omega
    rw [if_neg (by omega), List.getD_append_right _ _ _ _ (by omega), hlenl,
      List.getD_eq_getElem?_getD, List.getElem?_drop,
      ← List.getD_eq_getElem?_getD]
    have hidx : p + (i.1 - p) = i.1 := by omega
    rw [hidx]
    simp only [flat]
    rw [getD_ofFn B 0 i.1 i.2]

theorem crossover_zero (A B : Grid) : crossover 0 A B = B := by
  funext i
  rw [crossover_apply]
  simp

theorem crossover_total (A B : Grid) : crossover 27 A B = A := by
  funext i
  rw [crossover_apply, if_pos i.2]

theorem crossover_self (p : ℕ) (A : Grid) : crossover p A A = A := by
  funext i
  rw [crossover_apply]
  split <;> rfl

theorem flat_crossover (p : ℕ) (A B : Grid) :
    flat (crossover p A B) = (flat A).take p ++ (flat B).drop p := by
  apply flat_reshape
  simp only [List.length_append, List.length_take, List.length_drop,
    length_flat]
  omega

/-! ### argmax -/

theorem argmax_lt_length {α : Type} [LinearOrder α] :
    ∀ (l : List α), l ≠ [] → argmaxList l < l.length
  | [], h => absurd rfl h
  | x :: xs, _ => by
    rw [argmaxList]
    split
    · rename_i hlt
      have hxs : xs ≠ [] := by
        rintro rfl
        rw [List.getD_nil] at hlt
        exact lt_irrefl x hlt
      have hrec := argmax_lt_length xs hxs
      simp only [List.length_cons]
      omega
    · simp only [List.length_cons]
      omega

theorem argmax_is_max {α : Type} [LinearOrder α] :
    ∀ (l : List α) (d : α) (i : ℕ), i < l.length →
      l.getD i d ≤ l.getD (argmaxList l) d
  | [], _, _, h => by simp at h
  | x :: xs, d, i, h => by
    rw [argmaxList]
    rcases Decidable.eq_or_ne xs [] with rfl | hxs
    · rw [List.getD_nil, if_neg (lt_irrefl x)]
      match i with
      | 0 => exact le_refl _
      | j + 1 => exact absurd h (by simp)
    · have hax := argmax_lt_length xs hxs
      split
      · rename_i hlt
        match i with
        | 0 =>
          rw [List.getD_cons_zero, List.getD_cons_succ]
          refine le_of_lt ?_
          rw [← getD_default_irrel xs x d _ hax]
          exact hlt
        | j + 1 =>
          have hj : j < xs.length := by simpa using h
          rw [List.getD_cons_succ, List.getD_cons_succ]
          exact argmax_is_max xs d j hj
      · rename_i hge
        push_neg at hge
        match i with
        | 0 => exact le_refl _
        | j + 1 =>
          have hj : j < xs.length := by simpa using h
          rw [List.getD_cons_succ, List.getD_cons_zero]
          have h1 : xs.getD j d ≤ xs.getD (argmaxList xs) d :=
            argmax_is_max xs d j hj
          have h2 : xs.getD (argmaxList xs) d ≤ x := by
            rw [getD_default_irrel xs d x _ hax]
            exact hge
          exact le_trans h1 h2

theorem argmax_first {α : Type} [LinearOrder α] :
    ∀ (l : List α) (d : α) (i : ℕ), i < argmaxList l →
      l.getD i d < l.getD (argmaxList l) d
  | [], _, _, h => by simp [argmaxList] at h
  | x :: xs, d, i, h => by
    rw [argmaxList] at h ⊢
    split at h
    · rename_i hlt
      have hxs : xs ≠ [] := by
        rintro rfl
        rw [List.getD_nil] at hlt
        exact lt_irrefl x hlt
      have hax := argmax_lt_length xs hxs
      rw [if_pos hlt]
      match i with
      | 0 =>
        rw [List.getD_cons_zero, List.getD_cons_succ]
        rw [← getD_default_irrel xs x d _ hax]
        exact hlt
      | j + 1 =>
        have hj : j < argmaxList xs := by omega
        rw [List.getD_cons_succ, List.getD_cons_succ]
        exact argmax_first xs d j hj
    · omega

theorem argmax_eq_of {α : Type} [LinearOrder α] (l : List α) (d : α) (k : ℕ)
    (hk : k < l.length)
    (hlow : ∀ i, i < k → l.getD i d < l.getD k d)
    (hup : ∀ i, i < l.length → l.getD i d ≤ l.getD k d) :
    argmaxList l = k := by
  have hne : l ≠ [] := by
    rintro rfl
    simp at hk
  have hax := argmax_lt_length l hne
  rcases lt_trichotomy (argmaxList l) k with h | h | h
  · have h1 := hlow _ h
    have h2 := argmax_is_max l d k hk
    exact absurd (lt_of_le_of_lt h2 h1) (lt_irrefl _)
  · exact h
  · have h1 := argmax_first l d k h
    have h2 := hup _ hax
    exact absurd (lt_of_le_of_lt h2 h1) (lt_irrefl _)

theorem argmax_replicate {α : Type} [LinearOrder α] (n : ℕ) (a : α) :
    argmaxList (List.replicate n a) = 0 := by
  cases n with
  | zero => rfl
  | succ m =>
    rw [List.replicate_succ, argmaxList, getD_replicate_self,
      if_neg (lt_irrefl a)]

/-! ### Fitness and the cache -/

theorem fitness_hit (O : Oracles) (g : Grid) (c : Cache) (v : ℝ)
    (h : lookupC c (keyOf g) = some v) : fitness O g c = ⟨v, c, false⟩ := by
  unfold fitness
  rw [h]

theorem fitness_miss_valid (O : Oracles) (g : Grid) (c : Cache)
    (h : lookupC c (keyOf g) = none) (hv : O.is_array_valid g = true) :
    fitness O g c = ⟨rawScore O g, (keyOf g, rawScore O g) :: c, true⟩ := by
  unfold fitness
  rw [h, if_pos hv]

theorem fitness_miss_invalid (O : Oracles) (g : Grid) (c : Cache)
    (h : lookupC c (keyOf g) = none) (hv : O.is_array_valid g = false) :
    fitness O g c = ⟨0, (keyOf g, 0) :: c, true⟩ := by
  unfold fitness
  rw [h, if_neg (by simp [hv])]

theorem fitness_score (O : Oracles) (g : Grid) (c : Cache)
    (hc : cacheCorrect O c) : (fitness O g c).score = fitnessPure O g := by
  cases hl : lookupC c (keyOf g) with
  | some v =>
    rw [fitness_hit O g c v hl]
    exact hc g v hl
  | none =>
    by_cases hv : O.is_array_valid g
    · rw [fitness_miss_valid O g c hl hv, fitnessPure, if_pos hv]
    · rw [fitness_miss_invalid O g c hl (by simpa using hv), fitnessPure,
        if_neg hv]

theorem fitness_cache_lookup (O : Oracles) (g : Grid) (c : Cache) :
    lookupC (fitness O g c).cache (keyOf g) = some (fitness O g c).score := by
  cases hl : lookupC c (keyOf g) with
  | some v => rw [fitness_hit O g c v hl, hl]
  | none =>
    by_cases hv : O.is_array_valid g
    · rw [fitness_miss_valid O g c hl hv]
      show (if keyOf g = keyOf g then _ else _) = _
      rw [if_pos rfl]
    · rw [fitness_miss_invalid O g c hl (by simpa using hv)]
      show (if keyOf g = keyOf g then _ else _) = _
      rw [if_pos rfl]

theorem fitness_cache_mono (O : Oracles) (g : Grid) (c : Cache)
    (k : List ℤ) (v : ℝ) (h : lookupC c k = some v) :
    lookupC (fitness O g c).cache k = some v := by
  cases hl : lookupC c (keyOf g) with
  | some v2 => rw [fitness_hit O g c v2 hl, h]
  | none =>
    have hne : k ≠ keyOf g := by
      rintro rfl
      rw [h] at hl
      exact Option.noConfusion hl
    by_cases hv : O.is_array_valid g
    · rw [fitness_miss_valid O g c hl hv]
      show (if k = keyOf g then _ else lookupC c k) = _
      rw [if_neg hne, h]
    · rw [fitness_miss_invalid O g c hl (by simpa using hv)]
      show (if k = keyOf g then _ else lookupC c k) = _
      rw [if_neg hne, h]

theorem fitness_cache_correct (O : Oracles) (g : Grid) (c : Cache)
    (hc : cacheCorrect O c) : cacheCorrect O (fitness O g c).cache := by
  cases hl : lookupC c (keyOf g) with
  | some v => rw [fitness_hit O g c v hl]; exact hc
  | none =>
    intro g2 v2 h2
    by_cases hv : O.is_array_valid g
    · rw [fitness_miss_valid O g c hl hv] at h2
      by_cases hk : keyOf g2 = keyOf g
      · rw [show lookupC ((keyOf g, rawScore O g) :: c) (keyOf g2) =
            if keyOf g2 = keyOf g then some (rawScore O g)
            else lookupC c (keyOf g2) from rfl, if_pos hk] at h2
        cases keyOf_inj hk
        rw [fitnessPure, if_pos hv]
        exact (Option.some_inj.mp h2).symm
      · rw [show lookupC ((keyOf g, rawScore O g) :: c) (keyOf g2) =
            if keyOf g2 = keyOf g then some (rawScore O g)
            else lookupC c (keyOf g2) from rfl, if_neg hk] at h2
        exact hc g2 v2 h2
    · rw [fitness_miss_invalid O g c hl (by simpa using hv)] at h2
      by_cases hk : keyOf g2 = keyOf g
      · rw [show lookupC ((keyOf g, 0) :: c) (keyOf g2) =
            if keyOf g2 = keyOf g then some 0
            else lookupC c (keyOf g2) from rfl, if_pos hk] at h2
        cases keyOf_inj hk
        rw [fitnessPure, if_neg (by simpa using hv)]
        exact (Option.some_inj.mp h2).symm
      · rw [show lookupC ((keyOf g, 0) :: c) (keyOf g2) =
            if keyOf g2 = keyOf g then some 0
            else lookupC c (keyOf g2) from rfl, if_neg hk] at h2
        exact hc g2 v2 h2

/-! ### Population evaluation -/

theorem evalPop_spec (O : Oracles) : ∀ (l : List Grid) (c : Cache),
    cacheCorrect O c →
    (evalPop O l c).1 = l.map (fitnessPure O) ∧
      cacheCorrect O (evalPop O l c).2
  | [], _, hc => ⟨rfl, hc⟩
  | g :: t, c, hc => by
    have h1 := fitness_score O g c hc
    have h2 := fitness_cache_correct O g c hc
    have ih := evalPop_spec O t (fitness O g c).cache h2
    show ((fitness O g c).score :: (evalPop O t (fitness O g c).cache).1, _).1
        = _ ∧ cacheCorrect O (evalPop O t (fitness O g c).cache).2
    rw [List.map_cons]
    exact ⟨by rw [h1, ih.1], ih.2⟩

/-! ### Tournament selection -/

theorem getD_map {α β : Type} (f : α → β) (l : List α) (d : α) (d2 : β)
    (i : ℕ) (h : i < l.length) : (l.map f).getD i d2 = f (l.getD i d) := by
  have h2 : i < (l.map f).length := by simpa using h
  rw [List.getD_eq_getElem?_getD, List.getElem?_eq_getElem h2,
    List.getD_eq_getElem?_getD, List.getElem?_eq_getElem h]
  simp

theorem tournament_selection_some {α : Type} [LinearOrder α] [Inhabited α]
    (pop : List Grid) (fits : List α) (k : ℕ) (draws : List ℕ)
    (h : k ≤ pop.length) :
    tournament_selection pop fits k draws =
      some (tournamentCore pop fits draws) := by
  rw [tournament_selection, if_pos h]

theorem tournament_selection_err {α : Type} [LinearOrder α] [Inhabited α]
    (pop : List Grid) (fits : List α) (k : ℕ) (draws : List ℕ)
    (h : pop.length < k) :
    tournament_selection pop fits k draws = none := by
  rw [tournament_selection, if_neg (by omega)]

theorem tournamentCore_replicate {α : Type} [LinearOrder α] [Inhabited α]
    (n : ℕ) (fits : List α) (draws : List ℕ) :
    tournamentCore (List.replicate n zeroGrid) fits draws = zeroGrid :=
  getD_replicate_self n _ zeroGrid

theorem tournamentCore_max {α : Type} [LinearOrder α] [Inhabited α]
    (pop : List Grid) (fits : List α) (draws : List ℕ) (hne : draws ≠ []) :
    argmaxList (draws.map fun j => fits.getD j default) < draws.length ∧
    tournamentCore pop fits draws = pop.getD
(draws.getD (argmaxList (draws.map fun j => fits.getD j default)) 0)
      zeroGrid ∧
    (∀ m, m < draws.length →
      fits.getD (draws.getD m 0) default ≤ fits.getD
        (draws.getD (argmaxList (draws.map fun j => fits.getD j default)) 0)
        default) ∧
    (∀ m, m < argmaxList (draws.map fun j => fits.getD j default) →
      fits.getD (draws.getD m 0) default < fits.getD
        (draws.getD (argmaxList (draws.map fun j => fits.getD j default)) 0)
        default) := by
  set f : ℕ → α := fun j => fits.getD j default with hf
  have hvne : draws.map f ≠ [] := by
    simpa using hne
  have hb : argmaxList (draws.map f) < draws.length := by
    have := argmax_lt_length (draws.map f) hvne
    simpa using this
  refine ⟨hb, rfl, ?_, ?_⟩
  · intro m hm
    have h1 := argmax_is_max (draws.map f) (f 0) m (by simpa using hm)
    rwa [getD_map f draws 0 (f 0) m hm,
      getD_map f draws 0 (f 0) _ hb] at h1
  · intro m hm
    have hmlen : m < draws.length := lt_trans hm hb
    have h1 := argmax_first (draws.map f) (f 0) m hm
    rwa [getD_map f draws 0 (f 0) m hmlen,
      getD_map f draws 0 (f 0) _ hb] at h1

/-! ### Mutation -/

theorem mutate_fst_apply {R : Type} [LinearOrder R] (g : Grid) (rate : R)
    (rand : Fin 27 → R) (draws : ℕ → ℤ) (i : Fin 27) :
    (mutate g rate rand draws).1 i =
      if rand i < rate then draws (rankOf rate rand i) else g i := rfl

theorem mutate_inplace {R : Type} [LinearOrder R] (g : Grid) (rate : R)
    (rand : Fin 27 → R) (draws : ℕ → ℤ) :
    (mutate g rate rand draws).2 = (mutate g rate rand draws).1 := rfl

theorem mutate_noop {R : Type} [LinearOrder R] (g : Grid) (rate : R)
    (rand : Fin 27 → R) (draws : ℕ → ℤ) (h : ∀ i, ¬ rand i < rate) :
    (mutate g rate rand draws).1 = g := by
  funext i
  rw [mutate_fst_apply, if_neg (h i)]

theorem mutate_all {R : Type} [LinearOrder R] (g : Grid) (rate : R)
    (rand : Fin 27 → R) (draws : ℕ → ℤ) (h : ∀ i, rand i < rate) :
    (mutate g rate rand draws).1 = fun i => draws (rankOf rate rand i) := by
  funext i
  rw [mutate_fst_apply, if_pos (h i)]

/-! ### The adaptive schedules -/

theorem mutationRate_lower : ∀ n : ℕ, (99 : ℝ) / 5000 ≤ mutationRate n
  | 0 => by
    rw [mutationRate, INITIAL_MUTATION_RATE]
    norm_num
  | n + 1 => by
    rw [mutationRate]
    split
    · rename_i hgt
      rw [MUTATION_DECAY_RATE]
      nlinarith [hgt]
    · exact mutationRate_lower n

theorem mutationRate_pos (n : ℕ) : 0 < mutationRate n :=
  lt_of_lt_of_le (by norm_num) (mutationRate_lower n)

theorem mutationRate_antitone (n : ℕ) :
    mutationRate (n + 1) ≤ mutationRate n := by
  rw [mutationRate]
  split
  · rename_i hgt
    rw [MUTATION_DECAY_RATE]
    nlinarith [mutationRate_pos n]
  · exact le_refl _

theorem mutationRate_le_init : ∀ n : ℕ, mutationRate n ≤ 1 / 10
  | 0 => by
    rw [mutationRate, INITIAL_MUTATION_RATE]
  | n + 1 => le_trans (mutationRate_antitone n) (mutationRate_le_init n)

theorem pow99_big (k : ℕ) (hk : k ≤ 160) :
    (1 : ℝ) / 5 < (99 / 100 : ℝ) ^ k := by
  have h160 : (1 : ℝ) / 5 < (99 / 100 : ℝ) ^ 160 := by
    rw [div_pow, div_lt_div_iff₀ (by norm_num) (by positivity)]
    have hnat : (100 : ℕ) ^ 160 < 5 * 99 ^ 160 := by decide
    calc (1 : ℝ) * 100 ^ 160 = ((100 ^ 160 : ℕ) : ℝ) := by push_cast; ring
    _ < ((5 * 99 ^ 160 : ℕ) : ℝ) := by exact_mod_cast hnat
    _ = (99 : ℝ) ^ 160 * 5 := by push_cast; ring
  refine lt_of_lt_of_le h160 ?_
  exact pow_le_pow_of_le_one (by norm_num) (by norm_num) hk

theorem mutationRate_closed : ∀ k : ℕ, k ≤ 161 →
    mutationRate k = (1 / 10 : ℝ) * (99 / 100) ^ k
  | 0, _ => by
    rw [mutationRate, INITIAL_MUTATION_RATE, pow_zero, mul_one]
  | k + 1, hk => by
    have hrec := mutationRate_closed k (by omega)
    have hgt : mutationRate k > 1 / 50 := by
      rw [hrec]
      have := pow99_big k (by omega)
      nlinarith
    rw [mutationRate, if_pos hgt, hrec, MUTATION_DECAY_RATE]
    ring

theorem mutationRate_161_lt : mutationRate 161 < 1 / 50 := by
  rw [mutationRate_closed 161 (le_refl _)]
  have hnat : (5 : ℕ) * 99 ^ 161 < 100 ^ 161 := by decide
  have h161 : (99 / 100 : ℝ) ^ 161 < 1 / 5 := by
    rw [div_pow, div_lt_div_iff₀ (by positivity) (by norm_num)]
    calc (99 : ℝ) ^ 161 * 5 = ((5 * 99 ^ 161 : ℕ) : ℝ) := by push_cast; ring
    _ < ((100 ^ 161 : ℕ) : ℝ) := by exact_mod_cast hnat
    _ = (1 : ℝ) * 100 ^ 161 := by push_cast; ring
  nlinarith

theorem tournamentSize_ge_two (g : ℕ) : 2 ≤ tournamentSize g :=
  le_max_right _ _

theorem tournamentSize_antitone (g : ℕ) :
    tournamentSize (g + 1) ≤ tournamentSize g := by
  rw [tournamentSize, tournamentSize]
  refine max_le_max ?_ (le_refl 2)
  refine Int.toNat_le_toNat (Int.floor_le_floor ?_)
  rw [TOURNAMENT_SIZE_FACTOR, TOURNAMENT_SIZE_BASE]
  have hpow : ((99 : ℝ) / 100) ^ (g + 1) ≤ (99 / 100 : ℝ) ^ g :=
    pow_le_pow_of_le_one (by norm_num) (by norm_num) (by omega)
  nlinarith

theorem tournamentSize_le_base (g : ℕ) : tournamentSize g ≤ 100 := by
  rw [tournamentSize]
  refine max_le ?_ (by norm_num)
  rw [Int.toNat_le]
  have hpow : ((TOURNAMENT_SIZE_FACTOR : ℝ)) ^ g ≤ 1 :=
    pow_le_one₀ (by rw [TOURNAMENT_SIZE_FACTOR]; norm_num)
      (by rw [TOURNAMENT_SIZE_FACTOR]; norm_num)
  have hle : (TOURNAMENT_SIZE_BASE : ℝ) * TOURNAMENT_SIZE_FACTOR ^ g
      ≤ ((100 : ℤ) : ℝ) := by
    rw [TOURNAMENT_SIZE_BASE]
    push_cast
    nlinarith
  exact le_trans (Int.floor_le_floor hle) (by simp)

/-! ### Concrete score computations for the misalignment run -/

theorem l1diff_self (g : Grid) : l1diff g g = 0 := by
  simp [l1diff]

theorem symmetry_reward_const (v : ℤ) :
    calculate_symmetry_reward (fun _ => v) = 3 := by
  unfold calculate_symmetry_reward
  have h : ∀ a : Fin 3,
      Real.exp (-((l1diff (fun _ => v) (npFlip a (fun _ => v)) : ℤ) : ℝ))
        = 1 := by
    intro a
    have h0 : l1diff (fun _ => v) (npFlip a (fun _ => v)) = 0 := by
      simp [l1diff, npFlip]
    rw [h0]
    simp [Real.exp_zero]
  rw [Finset.sum_congr rfl fun a _ => h a]
  simp

theorem symmetry_zeroGrid : calculate_symmetry_reward zeroGrid = 3 :=
  symmetry_reward_const 0

theorem symmetry_oneGrid : calculate_symmetry_reward oneGrid = 3 :=
  symmetry_reward_const 1

theorem uniqueCount_const (v : ℤ) : uniqueCount (fun _ => v) = 1 := by
  unfold uniqueCount
  rw [Finset.image_const Finset.univ_nonempty v]
  simp

theorem diversity_const (v : ℤ) :
    calculate_diversity_penalty (fun _ => v) = 26 / 27 := by
  rw [calculate_diversity_penalty, uniqueCount_const, totalCells]
  norm_num

theorem diversity_zeroGrid : calculate_diversity_penalty zeroGrid = 26 / 27 :=
  diversity_const 0

theorem diversity_oneGrid : calculate_diversity_penalty oneGrid = 26 / 27 :=
  diversity_const 1

theorem heat_penalty_zero : calculate_heat_penalty 0 = 0 := by
  rw [calculate_heat_penalty, if_neg (lt_irrefl 0)]
  ring

theorem zeroGrid_ne_oneGrid : zeroGrid ≠ oneGrid := by
  intro h
  have h2 := congrFun h ⟨0, by norm_num⟩
  simp [zeroGrid, oneGrid] at h2

theorem scMetrics_zeroGrid :
    scOracles.reactor_metrics zeroGrid = ⟨0, 0, 0, 0⟩ := by
  simp only [scOracles]
  rw [if_neg zeroGrid_ne_oneGrid]

theorem scMetrics_oneGrid :
    scOracles.reactor_metrics oneGrid = ⟨10, 0, 0, 0⟩ := by
  simp [scOracles]

theorem scValid (g : Grid) : scOracles.is_array_valid g = true := rfl

theorem scValidateOk (g : Grid) : scOracles.validate_ok g = true := rfl

theorem fitnessPure_zeroGrid : fitnessPure scOracles zeroGrid = 32 / 27 := by
  rw [fitnessPure, if_pos (scValid zeroGrid)]
  simp only [rawScore, scMetrics_zeroGrid, symmetry_zeroGrid,
    diversity_zeroGrid, heat_penalty_zero]
  norm_num

theorem fitnessPure_oneGrid : fitnessPure scOracles oneGrid = 275 / 27 := by
  rw [fitnessPure, if_pos (scValid oneGrid)]
  simp only [rawScore, scMetrics_oneGrid, symmetry_oneGrid,
    diversity_oneGrid, heat_penalty_zero]
  norm_num

/-! ### The misalignment run, generation by generation -/

theorem cacheCorrect_nil (O : Oracles) : cacheCorrect O [] := by
  intro g v h
  exact Option.noConfusion h

theorem map_range_const {f : ℕ → Grid} (n : ℕ)
    (hf : ∀ t, t < n → f t = zeroGrid) :
    (List.range n).map f = List.replicate n zeroGrid := by
  have h1 : ∀ b ∈ (List.range n).map f, b = zeroGrid := by
    intro b hb
    rcases List.mem_map.mp hb with ⟨t, ht, rfl⟩
    exact hf t (List.mem_range.mp ht)
  have h2 := List.eq_replicate_of_mem h1
  rwa [List.length_map, List.length_range] at h2

theorem selectElites_replicate (σ : List ℕ) (hσ : σ.length = 256) :
    selectElites (List.replicate 256 zeroGrid) σ =
      List.replicate 10 zeroGrid := by
  unfold selectElites
  have h1 : ∀ b ∈ (lastK ELITE_SIZE σ).map
      (fun i => (List.replicate 256 zeroGrid).getD i zeroGrid),
      b = zeroGrid := by
    intro b hb
    rcases List.mem_map.mp hb with ⟨i, _, rfl⟩
    exact getD_replicate_self 256 i zeroGrid
  have h2 := List.eq_replicate_of_mem h1
  rw [h2, List.length_map, lastK, List.length_drop, hσ]
  norm_num [ELITE_SIZE]

theorem tournamentSize_le_pop (gen : ℕ) :
    tournamentSize gen ≤ (List.replicate 256 zeroGrid).length := by
  rw [List.length_replicate]
  exact le_trans (tournamentSize_le_base gen) (by norm_num)

theorem breedChild_quiet (R : GenRand) (gen : ℕ) (rate : ℝ) (fits : List ℝ)
    (t : ℕ) (hrate : rate ≤ 1 / 10) (hmr : R.mutRand t = fun _ => 1 / 2) :
    breedChild scOracles R gen rate (List.replicate 256 zeroGrid) fits t =
      zeroGrid := by
  unfold breedChild
  rw [tournament_selection_some _ _ _ _ (tournamentSize_le_pop gen),
    tournament_selection_some _ _ _ _ (tournamentSize_le_pop gen)]
  simp only [Option.getD_some, tournamentCore_replicate, crossover_self]
  have hnm : (mutate zeroGrid rate (R.mutRand t) (R.mutDraw t)).1
      = zeroGrid := by
    apply mutate_noop
    intro i
    rw [hmr]
    intro hlt
    nlinarith
  rw [hnm, scValidateOk zeroGrid, if_pos rfl]

theorem breed_quiet (R : GenRand) (gen : ℕ) (rate : ℝ) (fits : List ℝ)
    (hσ : R.sortIdx.length = 256) (hrate : rate ≤ 1 / 10)
    (hmut : ∀ t, R.mutRand t = fun _ => 1 / 2) :
    breed scOracles R gen rate (List.replicate 256 zeroGrid) fits =
      List.replicate 256 zeroGrid := by
  unfold breed
  rw [selectElites_replicate R.sortIdx hσ,
    map_range_const _ (fun t _ => breedChild_quiet R gen rate fits t hrate
      (hmut t)),
    ← List.replicate_add]
  norm_num [POPULATION_SIZE, ELITE_SIZE]

theorem rateUpdate_bounds (r : ℝ) (h1 : 99 / 5000 ≤ r) (h2 : r ≤ 1 / 10) :
    99 / 5000 ≤ (if r > 1 / 50 then r * MUTATION_DECAY_RATE else r) ∧
      (if r > 1 / 50 then r * MUTATION_DECAY_RATE else r) ≤ 1 / 10 := by
  split
  · rename_i hgt
    rw [MUTATION_DECAY_RATE]
    constructor <;> nlinarith
  · exact ⟨h1, h2⟩

theorem gaStep_quiet (R : GenRand) (st : GAState) (k : ℕ) (hinv : scInv k st)
    (hσ : R.sortIdx.length = 256)
    (hmut : ∀ t, R.mutRand t = fun _ => 1 / 2) :
    scInv (k + 1) (gaStep scOracles R st) := by
  obtain ⟨hpop, hc, hlo, hhi, hgen⟩ := hinv
  have hev := evalPop_spec scOracles st.pop st.cache hc
  refine ⟨?_, hev.2, (rateUpdate_bounds st.rate hlo hhi).1,
    (rateUpdate_bounds st.rate hlo hhi).2, ?_⟩
  · show breed scOracles R st.gen st.rate st.pop
      (evalPop scOracles st.pop st.cache).1 = _
    rw [hpop]
    exact breed_quiet R st.gen st.rate _ hσ hhi hmut
  · show st.gen + 1 = k + 1
    rw [hgen]

theorem scInv_init : scInv 0 initState :=
  ⟨rfl, cacheCorrect_nil scOracles,
    by rw [initState, INITIAL_MUTATION_RATE]; norm_num,
    by rw [initState, INITIAL_MUTATION_RATE], rfl⟩

theorem gaLoop_succ_back (O : Oracles) (Rs : ℕ → GenRand) :
    ∀ (n : ℕ) (st : GAState),
      gaLoop O Rs (n + 1) st =
        gaStep O (Rs (gaLoop O Rs n st).gen) (gaLoop O Rs n st)
  | 0, _ => rfl
  | n + 1, st => by
    show gaLoop O Rs (n + 1) (gaStep O (Rs st.gen) st) = _
    rw [gaLoop_succ_back O Rs n (gaStep O (Rs st.gen) st)]
    rfl

theorem scRs_quiet (k : ℕ) (h1 : k ≠ 198) (h2 : k ≠ 199) :
    scRs k = scQuiet k := by
  rw [scRs, if_neg h1, if_neg h2]

theorem scInv_upto : ∀ k : ℕ, k ≤ 198 →
    scInv k (gaLoop scOracles scRs k initState)
  | 0, _ => scInv_init
  | k + 1, hk => by
    have ih := scInv_upto k (by omega)
    have hgen : (gaLoop scOracles scRs k initState).gen = k :=
      ih.2.2.2.2
    rw [gaLoop_succ_back, hgen, scRs_quiet k (by omega) (by omega)]
    exact gaStep_quiet (scQuiet k) _ k ih (by simp [scQuiet])
      (fun t => rfl)

theorem breedChild_inject0 (gen : ℕ) (rate : ℝ) (fits : List ℝ)
    (hrate : 0 < rate) :
    breedChild scOracles scInject gen rate (List.replicate 256 zeroGrid)
      fits 0 = oneGrid := by
  unfold breedChild
  rw [tournament_selection_some _ _ _ _ (tournamentSize_le_pop gen),
    tournament_selection_some _ _ _ _ (tournamentSize_le_pop gen)]
  simp only [Option.getD_some, tournamentCore_replicate, crossover_self]
  have hmr : scInject.mutRand 0 = fun _ => (0 : ℝ) := by
    simp [scInject]
  have hall : (mutate zeroGrid rate (scInject.mutRand 0)
      (scInject.mutDraw 0)).1 = oneGrid := by
    rw [mutate_all zeroGrid rate (scInject.mutRand 0) (scInject.mutDraw 0)
      (by intro i; rw [hmr]; exact hrate)]
    funext i
    rfl
  rw [hall, scValidateOk oneGrid, if_pos rfl]

theorem breed_inject (gen : ℕ) (rate : ℝ) (fits : List ℝ)
    (hlo : 99 / 5000 ≤ rate) (hhi : rate ≤ 1 / 10) :
    breed scOracles scInject gen rate (List.replicate 256 zeroGrid) fits =
      popFinal := by
  unfold breed
  have hσ : scInject.sortIdx.length = 256 := by
    simp [scInject, scQuiet]
  rw [selectElites_replicate _ hσ]
  have hsplit : List.range (POPULATION_SIZE - ELITE_SIZE) =
      0 :: (List.range 245).map Nat.succ := by
    show List.range 246 = _
    rw [show (246 : ℕ) = 245 + 1 by norm_num, List.range_succ_eq_map]
  rw [hsplit, List.map_cons, List.map_map,
    breedChild_inject0 gen rate fits (lt_of_lt_of_le (by norm_num) hlo)]
  have hrest : (List.range 245).map
      (breedChild scOracles scInject gen rate
        (List.replicate 256 zeroGrid) fits ∘ Nat.succ) =
      List.replicate 245 zeroGrid := by
    apply map_range_const
    intro t _
    show breedChild scOracles scInject gen rate _ fits (t + 1) = zeroGrid
    refine breedChild_quiet scInject gen rate fits (t + 1) hhi ?_
    show scInject.mutRand (t + 1) = fun _ => 1 / 2
    simp [scInject]
  rw [hrest]
  rfl

theorem gaStep_inject (st : GAState) (hinv : scInv 198 st) :
    (gaStep scOracles scInject st).pop = popFinal ∧
      cacheCorrect scOracles (gaStep scOracles scInject st).cache ∧
      99 / 5000 ≤ (gaStep scOracles scInject st).rate ∧
      (gaStep scOracles scInject st).rate ≤ 1 / 10 ∧
      (gaStep scOracles scInject st).gen = 199 := by
  obtain ⟨hpop, hc, hlo, hhi, hgen⟩ := hinv
  have hev := evalPop_spec scOracles st.pop st.cache hc
  refine ⟨?_, hev.2, (rateUpdate_bounds st.rate hlo hhi).1,
    (rateUpdate_bounds st.rate hlo hhi).2, ?_⟩
  · show breed scOracles scInject st.gen st.rate st.pop
      (evalPop scOracles st.pop st.cache).1 = _
    rw [hpop]
    exact breed_inject st.gen st.rate _ hlo hhi
  · show st.gen + 1 = 199
    rw [hgen]

theorem sc199 :
    (gaLoop scOracles scRs 199 initState).pop = popFinal ∧
      cacheCorrect scOracles (gaLoop scOracles scRs 199 initState).cache ∧
      99 / 5000 ≤ (gaLoop scOracles scRs 199 initState).rate ∧
      (gaLoop scOracles scRs 199 initState).rate ≤ 1 / 10 ∧
      (gaLoop scOracles scRs 199 initState).gen = 199 := by
  have h198 := scInv_upto 198 (le_refl _)
  rw [show (199 : ℕ) = 198 + 1 by norm_num, gaLoop_succ_back, h198.2.2.2.2,
    show scRs 198 = scInject by rw [scRs, if_pos rfl]]
  exact gaStep_inject _ h198

/-! ### The final generation's fitness vector and population -/

theorem map_fitnessPure_popFinal :
    popFinal.map (fitnessPure scOracles) = fitsFinal := by
  unfold popFinal fitsFinal
  rw [List.map_append, List.map_cons, List.map_replicate, List.map_replicate,
    fitnessPure_zeroGrid, fitnessPure_oneGrid]

theorem fitsFinal_length : fitsFinal.length = 256 := by
  unfold fitsFinal
  rw [List.length_append, List.length_replicate, List.length_cons,
    List.length_replicate]

theorem fitsFinal_getD_lt10 (i : ℕ) (h : i < 10) :
    fitsFinal.getD i 0 = 32 / 27 := by
  unfold fitsFinal
  rw [List.getD_append _ _ _ _ (by rw [List.length_replicate]; exact h),
    getD_replicate _ _ h]

theorem fitsFinal_getD_10 : fitsFinal.getD 10 0 = 275 / 27 := by
  unfold fitsFinal
  rw [List.getD_append_right _ _ _ _ (by rw [List.length_replicate]),
    List.length_replicate]
  rfl

theorem fitsFinal_getD_mid (i : ℕ) (h1 : 10 < i) (h2 : i < 256) :
    fitsFinal.getD i 0 = 32 / 27 := by
  unfold fitsFinal
  rw [List.getD_append_right _ _ _ _ (by rw [List.length_replicate]; omega),
    List.length_replicate, show i - 10 = (i - 11) + 1 by omega,
    List.getD_cons_succ, getD_replicate _ _ (by omega)]

theorem fitsFinal_mem_le (x : ℝ) (hx : x ∈ fitsFinal) : x ≤ 275 / 27 := by
  simp only [fitsFinal, List.mem_append, List.mem_cons,
    List.mem_replicate] at hx
  rcases hx with ⟨_, rfl⟩ | rfl | ⟨_, rfl⟩ <;> norm_num

theorem fitsFinal_getD_le (i : ℕ) : fitsFinal.getD i 0 ≤ 275 / 27 := by
  by_cases h : i < fitsFinal.length
  · rw [List.getD_eq_getElem?_getD, List.getElem?_eq_getElem h]
    exact fitsFinal_mem_le _ (List.getElem_mem h)
  · rw [List.getD_eq_getElem?_getD, List.getElem?_eq_none (by omega)]
    norm_num

theorem argmax_fitsFinal : argmaxList fitsFinal = 10 := by
  refine argmax_eq_of fitsFinal 0 10 (by rw [fitsFinal_length]; norm_num)
    ?_ ?_
  · intro i h
    rw [fitsFinal_getD_lt10 i h, fitsFinal_getD_10]
    norm_num
  · intro i _
    rw [fitsFinal_getD_10]
    exact fitsFinal_getD_le i

theorem popFinal_length : popFinal.length = 256 := by
  unfold popFinal
  rw [List.length_append, List.length_replicate, List.length_cons,
    List.length_replicate]

theorem popFinal_getD_ne10 (i : ℕ) (h : i ≠ 10) :
    popFinal.getD i zeroGrid = zeroGrid := by
  unfold popFinal
  by_cases h1 : i < 10
  · rw [List.getD_append _ _ _ _ (by rw [List.length_replicate]; exact h1),
      getD_replicate _ _ h1]
  · by_cases h2 : i < 256
    · rw [List.getD_append_right _ _ _ _
        (by rw [List.length_replicate]; omega),
        List.length_replicate, show i - 10 = (i - 11) + 1 by omega,
        List.getD_cons_succ]
      exact getD_replicate_self 245 (i - 11) zeroGrid
    · rw [List.getD_eq_getElem?_getD, List.getElem?_eq_none
        (by rw [List.length_append, List.length_replicate, List.length_cons,
          List.length_replicate]; omega)]
      rfl

theorem drawsLast_getD_0 : drawsLast.getD 0 0 = 0 := by
  unfold drawsLast
  rw [List.getD_append _ _ _ _ (by rw [List.length_range]; norm_num),
    List.getD_eq_getElem?_getD, List.getElem?_range (by norm_num)]
  rfl

theorem drawsLast_length : drawsLast.length = 13 := by
  unfold drawsLast
  rw [List.length_append, List.length_range]
  rfl

theorem tournamentCore_last :
    tournamentCore popFinal fitsFinal drawsLast = zeroGrid := by
  unfold tournamentCore
  have hd : (default : ℝ) = 0 := rfl
  have hmem : ∀ b ∈ drawsLast.map (fun j => fitsFinal.getD j default),
      b = (32 / 27 : ℝ) := by
    intro b hb
    rcases List.mem_map.mp hb with ⟨j, hj, rfl⟩
    have hje : j < 10 ∨ j = 11 ∨ j = 12 ∨ j = 13 := by
      simp only [drawsLast, List.mem_append, List.mem_cons,
        List.mem_range, List.not_mem_nil, or_false] at hj
      tauto
    rcases hje with h | rfl | rfl | rfl
    · rw [hd, fitsFinal_getD_lt10 j h]
    · rw [hd, fitsFinal_getD_mid 11 (by norm_num) (by norm_num)]
    · rw [hd, fitsFinal_getD_mid 12 (by norm_num) (by norm_num)]
    · rw [hd, fitsFinal_getD_mid 13 (by norm_num) (by norm_num)]
  have hvals : drawsLast.map (fun j => fitsFinal.getD j default) =
      List.replicate 13 (32 / 27 : ℝ) := by
    have h2 := List.eq_replicate_of_mem hmem
    rwa [List.length_map, drawsLast_length] at h2
  show popFinal.getD (drawsLast.getD
    (argmaxList (drawsLast.map fun j => fitsFinal.getD j default)) 0)
    zeroGrid = zeroGrid
  rw [hvals, argmax_replicate, drawsLast_getD_0]
  exact popFinal_getD_ne10 0 (by norm_num)

set_option maxRecDepth 8000 in
theorem breedChild_last (gen : ℕ) (rate : ℝ)
    (hrate : rate ≤ 1 / 10) (t : ℕ) :
    breedChild scOracles scLast gen rate popFinal fitsFinal t =
      zeroGrid := by
  unfold breedChild
  have hk : tournamentSize gen ≤ popFinal.length := by
    rw [popFinal_length]
    exact le_trans (tournamentSize_le_base gen) (by norm_num)
  rw [tournament_selection_some _ _ _ _ hk,
    tournament_selection_some _ _ _ _ hk]
  simp only [Option.getD_some]
  have hdraw1 : scLast.draws1 t = drawsLast := rfl
  have hdraw2 : scLast.draws2 t = drawsLast := rfl
  rw [hdraw1, hdraw2, tournamentCore_last, crossover_self]
  have hmr : scLast.mutRand t = fun _ => (1 / 2 : ℝ) := rfl
  have hnm : (mutate zeroGrid rate (scLast.mutRand t)
      (scLast.mutDraw t)).1 = zeroGrid := by
    apply mutate_noop
    intro i
    rw [hmr]
    intro hlt
    nlinarith
  rw [hnm, scValidateOk zeroGrid, if_pos rfl]

set_option maxRecDepth 8000 in
theorem sc200 :
    (gaLoop scOracles scRs 200 initState).pop.getD 10 zeroGrid = zeroGrid ∧
      (gaLoop scOracles scRs 200 initState).lastFits = fitsFinal := by
  obtain ⟨hpop, hc, _, hhi, hgen⟩ := sc199
  rw [show (200 : ℕ) = 199 + 1 by norm_num, gaLoop_succ_back, hgen,
    show scRs 199 = scLast by rw [scRs, if_neg (by norm_num), if_pos rfl]]
  have hev := evalPop_spec scOracles (gaLoop scOracles scRs 199 initState).pop
    (gaLoop scOracles scRs 199 initState).cache hc
  have hfits : (evalPop scOracles (gaLoop scOracles scRs 199 initState).pop
      (gaLoop scOracles scRs 199 initState).cache).1 = fitsFinal := by
    rw [hev.1, hpop, map_fitnessPure_popFinal]
  constructor
  · show (breed scOracles scLast (gaLoop scOracles scRs 199 initState).gen
      (gaLoop scOracles scRs 199 initState).rate
      (gaLoop scOracles scRs 199 initState).pop
      (evalPop scOracles (gaLoop scOracles scRs 199 initState).pop
        (gaLoop scOracles scRs 199 initState).cache).1).getD 10 zeroGrid
      = zeroGrid
    rw [hfits, hpop, hgen]
    unfold breed
    have hσlen : (scLast.sortIdx).length = 256 := by
      show sigmaLast.length = 256
      unfold sigmaLast
      rw [List.length_append, List.length_append, List.length_range,
        List.length_range', List.length_cons, List.length_nil]
    have hel : (selectElites popFinal scLast.sortIdx).length = 10 := by
      unfold selectElites
      rw [List.length_map, lastK, List.length_drop, hσlen]
      norm_num [ELITE_SIZE]
    rw [List.getD_append_right _ _ _ _ (le_of_eq hel), hel]
    have hrange0 : (List.range (POPULATION_SIZE - ELITE_SIZE)).getD 0 0
        = 0 := by
      rw [List.getD_eq_getElem?_getD, List.getElem?_range
        (by rw [show POPULATION_SIZE - ELITE_SIZE = 246 from rfl]; norm_num)]
      rfl
    rw [getD_map _ _ 0 zeroGrid 0
      (by rw [List.length_range, show POPULATION_SIZE - ELITE_SIZE = 246
        from rfl]; norm_num), hrange0]
    exact breedChild_last 199 _ hhi 0
  · exact hfits

/-- C1: the claim says that at termination the run picks the argmax of the
final generation's FitnessVector, that this vector is positionally aligned
with the final population, and that the run returns that grid together
with THAT GRID'S OWN fitness.  The code violates this: `fitnesses` is
computed at the top of the last loop iteration, the population is then
replaced by the newly bred one, and `population[np.argmax(fitnesses)]`
indexes the NEW population with an index for the OLD vector.  In the
concrete run embedded here (oracles `scOracles`, randomness `scRs`), the
returned pair is `(zeroGrid, 275/27)`: the reported fitness 275/27 is the
score of the all-ones grid at index 10 of the pre-breeding population,
while the returned all-zero grid's own fitness is 32/27 ≠ 275/27, so the
run reports a grid with a fitness that is not that grid's own fitness and
fails to return the best-by-fitness individual. -/
theorem c1_terminal_result_misaligned :
    genetic_algorithm scOracles scRs zeroGrid = (zeroGrid, 275 / 27) ∧
      fitnessPure scOracles zeroGrid = 32 / 27 ∧
      fitnessPure scOracles oneGrid = 275 / 27 ∧
      (275 / 27 : ℝ) ≠ 32 / 27 := by
  refine ⟨?_, fitnessPure_zeroGrid, fitnessPure_oneGrid, by norm_num⟩
  obtain ⟨hpop10, hfits⟩ := sc200
  unfold genetic_algorithm
  simp only [GENERATIONS]
  rw [hfits, argmax_fitsFinal, hpop10, if_pos (scValid zeroGrid),
    fitsFinal_getD_10]

/-! ### Claim theorems C2 - C10 -/

/-- C2: for every grid that fails the external validity predicate,
`fitness` stores score 0 under the grid's canonical key and returns 0,
whatever metric values the simulator reports (the metrics oracle is
universally quantified): the validity short-circuit ignores the metrics.
The cache hypothesis says every cached value was computed by `fitness`
itself, which holds of every reachable cache state (the cache starts empty
and only `fitness` writes it). -/
theorem c2_invalid_scores_zero (O : Oracles) (g : Grid) (c : Cache)
    (hc : cacheCorrect O c) (hv : O.is_array_valid g = false) :
    (fitness O g c).score = 0 ∧
      lookupC (fitness O g c).cache (keyOf g) = some 0 := by
  have hs : (fitness O g c).score = fitnessPure O g := fitness_score O g c hc
  have h0 : fitnessPure O g = 0 := by
    rw [fitnessPure, if_neg (by simp [hv])]
  refine ⟨by rw [hs, h0], ?_⟩
  have hl := fitness_cache_lookup O g c
  rwa [hs, h0] at hl

/-- Witness for C2 at a concrete invalid-everything oracle with nonzero
metrics, the all-zero grid, and the empty cache. -/
theorem c2_invalid_scores_zero_witness :
    (fitness ⟨fun _ => ⟨1, 2, 3, 4⟩, fun _ => false, fun _ => true⟩
      zeroGrid []).score = 0 :=
  (c2_invalid_scores_zero ⟨fun _ => ⟨1, 2, 3, 4⟩, fun _ => false,
    fun _ => true⟩ zeroGrid [] (cacheCorrect_nil _) rfl).1

/-- C3: for every valid grid that misses the cache, the returned score is
`0.9*energy_gen + 0.3*heat_gen + heat_penalty + 1.5*(efficiency/100)
+ 2*symmetry_reward - 5*diversity_penalty`, with the heat penalty,
symmetry reward (1.0 per exactly mirror-symmetric axis), and diversity
penalty as the claim describes them. -/
theorem c3_valid_score_formula (O : Oracles) (g : Grid) (c : Cache)
    (h1 : lookupC c (keyOf g) = none) (h2 : O.is_array_valid g = true) :
    (fitness O g c).score =
      0.9 * (O.reactor_metrics g).energy_gen +
        0.3 * (O.reactor_metrics g).heat_gen +
        calculate_heat_penalty (O.reactor_metrics g).heat_diff +
        1.5 * ((O.reactor_metrics g).efficiency / 100) +
        2 * calculate_symmetry_reward g -
        5 * calculate_diversity_penalty g ∧
    ((O.reactor_metrics g).heat_diff > 0 →
      calculate_heat_penalty (O.reactor_metrics g).heat_diff =
        -100 * (O.reactor_metrics g).heat_diff) ∧
    (¬ (O.reactor_metrics g).heat_diff > 0 →
      calculate_heat_penalty (O.reactor_metrics g).heat_diff =
          -(O.reactor_metrics g).heat_diff ∧
        0 ≤ calculate_heat_penalty (O.reactor_metrics g).heat_diff) ∧
    calculate_symmetry_reward g =
      ∑ a : Fin 3, Real.exp (-((l1diff g (npFlip a g) : ℤ) : ℝ)) ∧
    (∀ a : Fin 3, npFlip a g = g →
      Real.exp (-((l1diff g (npFlip a g) : ℤ) : ℝ)) = 1) ∧
    calculate_diversity_penalty g =
      ((totalCells : ℝ) - (uniqueCount g : ℝ)) / (totalCells : ℝ) := by
  refine ⟨?_, fun h => by rw [calculate_heat_penalty, if_pos h],
    fun h => ⟨?_, ?_⟩, rfl, ?_, rfl⟩
  · rw [fitness_miss_valid O g c h1 h2]
    show rawScore O g = _
    unfold rawScore
    ring
  · rw [calculate_heat_penalty, if_neg h]
    ring
  · rw [calculate_heat_penalty, if_neg h]
    push_neg at h
    nlinarith
  · intro a ha
    rw [ha, l1diff_self]
    norm_num

/-- Witness for C3 at the always-valid oracle `scOracles`, the all-zero
grid, and the empty cache. -/
theorem c3_valid_score_formula_witness :
    (fitness scOracles zeroGrid []).score =
      0.9 * 0 + 0.3 * 0 + calculate_heat_penalty 0 + 1.5 * (0 / 100) +
        2 * calculate_symmetry_reward zeroGrid -
        5 * calculate_diversity_penalty zeroGrid := by
  have h := (c3_valid_score_formula scOracles zeroGrid [] rfl rfl).1
  rwa [scMetrics_zeroGrid] at h

/-- C4 counterexample: `mutate` operates IN PLACE on its argument
(`individual[mask] = ...; return individual` makes no copy), so the claim
"the input grid's contents are unchanged after the call" fails: with
rate 1, all `np.random.rand` draws 0 and all value draws 5, cell 0 of the
input array holds 5, not its original 0, after the call. -/
theorem c4_mutate_modifies_input :
    (mutate zeroGrid (1 : ℝ) (fun _ => 0) (fun _ => 5)).2 ⟨0, by norm_num⟩ ≠
      zeroGrid ⟨0, by norm_num⟩ := by
  rw [mutate_inplace, mutate_fst_apply, if_pos (by norm_num : (0 : ℝ) < 1)]
  norm_num [zeroGrid]

/-- C4 amended: per cell, `mutate` replaces the value by the next
`randint(1, 17)` draw when that cell's `rand` draw is below the rate and
leaves it unchanged otherwise; with rate 0 the result equals the input,
with rate 1 every result cell is in 1..16 (never 0, never 17) — but the
operation is in place: after the call the argument's contents equal the
returned grid (they are the same array), not the original input. -/
theorem c4_mutate_semantics (g : Grid) (rate : ℝ) (rand : Fin 27 → ℝ)
    (draws : ℕ → ℤ) (hr : ∀ i, 0 ≤ rand i ∧ rand i < 1)
    (hd : ∀ n, 1 ≤ draws n ∧ draws n ≤ 16) :
    (∀ i, (mutate g rate rand draws).1 i =
      if rand i < rate then draws (rankOf rate rand i) else g i) ∧
    (rate = 0 → (mutate g rate rand draws).1 = g) ∧
    (rate = 1 → ∀ i, 1 ≤ (mutate g rate rand draws).1 i ∧
      (mutate g rate rand draws).1 i ≤ 16 ∧
      (mutate g rate rand draws).1 i ≠ 0 ∧
      (mutate g rate rand draws).1 i ≠ 17) ∧
    (∀ i, rand i < rate → 1 ≤ (mutate g rate rand draws).1 i ∧
      (mutate g rate rand draws).1 i ≤ 16) ∧
    (∀ i, ¬ rand i < rate → (mutate g rate rand draws).1 i = g i) ∧
    (mutate g rate rand draws).2 = (mutate g rate rand draws).1 := by
  refine ⟨fun i => mutate_fst_apply g rate rand draws i, ?_, ?_, ?_, ?_,
    mutate_inplace g rate rand draws⟩
  · rintro rfl
    exact mutate_noop g 0 rand draws fun i => not_lt.mpr (hr i).1
  · rintro rfl
    intro i
    rw [mutate_fst_apply, if_pos (hr i).2]
    refine ⟨(hd _).1, (hd _).2, ?_, ?_⟩
    · have := (hd (rankOf 1 rand i)).1
      omega
    · have := (hd (rankOf 1 rand i)).2
      omega
  · intro i hi
    rw [mutate_fst_apply, if_pos hi]
    exact ⟨(hd _).1, (hd _).2⟩
  · intro i hi
    rw [mutate_fst_apply, if_neg hi]

/-- Witness for C4 at rate 1, all `rand` draws 0, all value draws 5. -/
theorem c4_mutate_semantics_witness :
    (mutate zeroGrid (1 : ℝ) (fun _ => 0) (fun _ => 5)).2 =
      (mutate zeroGrid (1 : ℝ) (fun _ => 0) (fun _ => 5)).1 :=
  (c4_mutate_semantics zeroGrid 1 (fun _ => 0) (fun _ => 5)
    (fun _ => ⟨le_refl 0, zero_lt_one⟩)
    (fun _ => by norm_num)).2.2.2.2.2

/-- C5 counterexample: with tied fitnesses and the draw sequence `[1, 0]`
— an admissible outcome of `np.random.choice(2, size=2, replace=False)`,
which returns the sampled indices in random order — the selection returns
`population[1]`, not the lowest tied population index 0 the claim
promises. -/
theorem c5_tie_not_lowest_index :
    tournament_selection [zeroGrid, oneGrid] [(5 : ℚ), 5] 2 [1, 0] =
        some oneGrid ∧
      oneGrid ≠ zeroGrid ∧
      ([1, 0] : List ℕ).Nodup ∧ (∀ j ∈ ([1, 0] : List ℕ), j < 2) ∧
      ([1, 0] : List ℕ).length = 2 := by
  refine ⟨by decide, ?_, by decide, by decide, rfl⟩
  intro h
  have h2 := congrFun h ⟨0, by norm_num⟩
  simp [oneGrid, zeroGrid] at h2

/-- C5 amended: `np.random.choice` raises when `k` exceeds the population
size (modelled as `none`); otherwise the member at the drawn index whose
fitness is maximal is returned, with ties resolved by the FIRST occurrence
of the maximum in the drawn order (numpy returns the sample in random
order), not by lowest population index; and when the draw is a permutation
of the whole index range (the only possibility for k = population size)
the returned index achieves the global maximum fitness. -/
theorem c5_tournament_semantics {α : Type} [LinearOrder α] [Inhabited α]
    (pop : List Grid) (fits : List α) (k : ℕ) (draws : List ℕ)
    (hne : draws ≠ []) :
    (pop.length < k → tournament_selection pop fits k draws = none) ∧
    (k ≤ pop.length → tournament_selection pop fits k draws =
      some (pop.getD
        (draws.getD (argmaxList (draws.map fun j => fits.getD j default)) 0)
        zeroGrid)) ∧
    argmaxList (draws.map fun j => fits.getD j default) < draws.length ∧
    (∀ m, m < draws.length → fits.getD (draws.getD m 0) default ≤
      fits.getD
        (draws.getD (argmaxList (draws.map fun j => fits.getD j default)) 0)
        default) ∧
    (∀ m, m < argmaxList (draws.map fun j => fits.getD j default) →
      fits.getD (draws.getD m 0) default <
      fits.getD
        (draws.getD (argmaxList (draws.map fun j => fits.getD j default)) 0)
        default) ∧
    (draws.Perm (List.range pop.length) → ∀ j, j < pop.length →
      fits.getD j default ≤
      fits.getD
        (draws.getD (argmaxList (draws.map fun j => fits.getD j default)) 0)
        default) := by
  obtain ⟨hb, hcore, hmax, hfirst⟩ := tournamentCore_max pop fits draws hne
  refine ⟨fun h => tournament_selection_err _ _ _ _ h,
    fun h => by rw [tournament_selection_some _ _ _ _ h, hcore],
    hb, hmax, hfirst, ?_⟩
  intro hperm j hj
  have hjm : j ∈ draws := hperm.mem_iff.mpr (List.mem_range.mpr hj)
  rcases List.getElem_of_mem hjm with ⟨m, hm, hmeq⟩
  have hgd : draws.getD m 0 = j := by
    rw [List.getD_eq_getElem?_getD, List.getElem?_eq_getElem hm, hmeq]
    rfl
  have hle := hmax m hm
  rwa [hgd] at hle

/-- Witness for C5 at a two-member population with tied rational
fitnesses, k = 2, and the draw `[1, 0]`. -/
theorem c5_tournament_semantics_witness :
    tournament_selection [zeroGrid, oneGrid] [(5 : ℚ), 5] 2 [1, 0] =
      some (([zeroGrid, oneGrid] : List Grid).getD
        (([1, 0] : List ℕ).getD
          (argmaxList (([1, 0] : List ℕ).map
            fun j => ([(5 : ℚ), 5] : List ℚ).getD j default)) 0)
        zeroGrid) :=
  (c5_tournament_semantics [zeroGrid, oneGrid] [(5 : ℚ), 5] 2 [1, 0]
    (by decide)).2.1 (by simp)

/-- C6: for every cut point `p` and all parents, the child's flattened
row-major sequence is parent1's flattened prefix of length `p` followed by
parent2's flattened suffix; the child equals parent1 at `p = total_cells`,
equals parent2 at `p = 0`, and is a pure function of `(p, parents)`.  The
cut point itself is drawn by `np.random.randint(1, 27)`, whose support is
`crossPointAdmissible`, i.e. `1 ≤ p ≤ 26`. -/
theorem c6_crossover_recombination (p : ℕ) (A B : Grid) :
    flat (crossover p A B) = (flat A).take p ++ (flat B).drop p ∧
    (∀ i : Fin 27, crossover p A B i = if i.1 < p then A i else B i) ∧
    crossover totalCells A B = A ∧
    crossover 0 A B = B ∧
    (crossPointAdmissible p ↔ 1 ≤ p ∧ p ≤ 26) :=
  ⟨flat_crossover p A B, crossover_apply p A B, crossover_total A B,
    crossover_zero A B, Iff.rfl⟩

/-- C7: re-evaluating a grid with identical contents (equal canonical
keys) returns the same score, does not re-invoke the simulator, and leaves
the cache unchanged; and a `fitness` call never overwrites an existing
cache binding (first write wins). -/
theorem c7_cache_coherence (O : Oracles) (g1 g2 : Grid) (c : Cache)
    (hkey : keyOf g1 = keyOf g2) :
    (fitness O g2 (fitness O g1 c).cache).score = (fitness O g1 c).score ∧
    (fitness O g2 (fitness O g1 c).cache).simCalled = false ∧
    (fitness O g2 (fitness O g1 c).cache).cache = (fitness O g1 c).cache ∧
    (∀ k v, lookupC c k = some v →
      lookupC (fitness O g1 c).cache k = some v) := by
  have hl : lookupC (fitness O g1 c).cache (keyOf g2) =
      some (fitness O g1 c).score := by
    rw [← hkey]
    exact fitness_cache_lookup O g1 c
  rw [fitness_hit O g2 _ _ hl]
  exact ⟨rfl, rfl, rfl, fun k v h => fitness_cache_mono O g1 c k v h⟩

/-- Witness for C7: the second evaluation of the all-zero grid is a cache
hit that does not call the simulator. -/
theorem c7_cache_coherence_witness :
    (fitness scOracles zeroGrid
        (fitness scOracles zeroGrid []).cache).score =
      (fitness scOracles zeroGrid []).score ∧
    (fitness scOracles zeroGrid
        (fitness scOracles zeroGrid []).cache).simCalled = false :=
  ⟨(c7_cache_coherence scOracles zeroGrid zeroGrid [] rfl).1,
    (c7_cache_coherence scOracles zeroGrid zeroGrid [] rfl).2.1⟩

/-- C8: when `argsort` returns a permutation of the index range arranged
so the fitnesses are non-decreasing, the next population has exactly
`POPULATION_SIZE` members, its first `ELITE_SIZE` members are exactly the
selected elites, every elite (the population members at the last
`ELITE_SIZE` argsort positions) is present unmodified, and each elite's
fitness dominates the fitness of every index in the non-elite part of the
argsort order. -/
theorem c8_elitism (O : Oracles) (R : GenRand) (gen : ℕ) (rate : ℝ)
    (pop : List Grid) (fits : List ℝ)
    (hperm : R.sortIdx.Perm (List.range POPULATION_SIZE))
    (hsort : R.sortIdx.Pairwise (fun a b => fits.getD a 0 ≤ fits.getD b 0)) :
    (breed O R gen rate pop fits).length = POPULATION_SIZE ∧
    (breed O R gen rate pop fits).take ELITE_SIZE =
      selectElites pop R.sortIdx ∧
    (∀ i ∈ lastK ELITE_SIZE R.sortIdx,
      pop.getD i zeroGrid ∈ breed O R gen rate pop fits) ∧
    (∀ i ∈ lastK ELITE_SIZE R.sortIdx,
      ∀ j ∈ R.sortIdx.take (POPULATION_SIZE - ELITE_SIZE),
        fits.getD j 0 ≤ fits.getD i 0) := by
  have hσlen : R.sortIdx.length = 256 := by
    rw [hperm.length_eq, List.length_range]
    rfl
  have hlenel : (selectElites pop R.sortIdx).length = ELITE_SIZE := by
    unfold selectElites
    rw [List.length_map, lastK, List.length_drop, hσlen]
    rfl
  have hdrop : lastK ELITE_SIZE R.sortIdx =
      R.sortIdx.drop (POPULATION_SIZE - ELITE_SIZE) := by
    rw [lastK, hσlen]
    rfl
  refine ⟨?_, ?_, ?_, ?_⟩
  · unfold breed
    rw [List.length_append, hlenel, List.length_map, List.length_range]
    rfl
  · unfold breed
    rw [← hlenel, List.take_left]
  · intro i hi
    unfold breed
    refine List.mem_append_left _ ?_
    unfold selectElites
    exact List.mem_map_of_mem _ hi
  · intro i hi j hj
    rw [hdrop] at hi
    have hsplit := List.take_append_drop (POPULATION_SIZE - ELITE_SIZE)
      R.sortIdx
    have hs2 : (R.sortIdx.take (POPULATION_SIZE - ELITE_SIZE) ++
        R.sortIdx.drop (POPULATION_SIZE - ELITE_SIZE)).Pairwise
        (fun a b => fits.getD a 0 ≤ fits.getD b 0) := by
      rw [hsplit]
      exact hsort
    rw [List.pairwise_append] at hs2
    exact hs2.2.2 j hj i hi

set_option maxRecDepth 8000 in
/-- Witness for C8: identity argsort on a constant fitness vector over an
all-zero population. -/
theorem c8_elitism_witness :
    (breed scOracles (scQuiet 0) 0 0 (List.replicate 256 zeroGrid)
      (List.replicate 256 (0 : ℝ))).length = POPULATION_SIZE :=
  (c8_elitism scOracles (scQuiet 0) 0 0 (List.replicate 256 zeroGrid)
    (List.replicate 256 (0 : ℝ)) (List.Perm.refl _)
    ((List.pairwise_lt_range 256).imp fun {a b} _ => by
      rw [getD_replicate_self, getD_replicate_self])).1

/-- C9 counterexample: the floor check precedes the multiplication, so the
rate can land BELOW the 0.02 floor: with the exact schedule
`0.1 * 0.99^k`, generation 160's rate `0.1*0.99^160 ≈ 0.020032` is still
above 0.02, and one more decay gives
`mutationRate 161 = 0.1*0.99^161 ≈ 0.019831 < 0.02`, within the 200
generation budget — falsifying "never drops below its configured floor of
0.02". -/
theorem c9_rate_below_floor :
    mutationRate 161 < 1 / 50 ∧ 161 ≤ GENERATIONS :=
  ⟨mutationRate_161_lt, by norm_num [GENERATIONS]⟩

/-- C9 amended: the mutation rate is monotonically non-increasing and
never drops below `0.99 * 0.02 = 0.0198` (one decay step below the checked
floor, which it CAN undershoot); the tournament size is monotonically
non-increasing and never drops below 2. -/
theorem c9_schedules_monotone (n : ℕ) :
    mutationRate (n + 1) ≤ mutationRate n ∧
    99 / 5000 ≤ mutationRate n ∧
    tournamentSize (n + 1) ≤ tournamentSize n ∧
    2 ≤ tournamentSize n :=
  ⟨mutationRate_antitone n, mutationRate_lower n, tournamentSize_antitone n,
    tournamentSize_ge_two n⟩

/-- C10: a 3×3×3 grid has 27 cells but only 18 distinct codes exist in
0..17, so the diversity penalty of any grid over that alphabet is at least
`(27-18)/27 = 1/3` and strictly below 1, and the fitness deduction
`5 * diversity_penalty` is at least `5/3`. -/
theorem c10_diversity_penalty_bounds (g : Grid)
    (h : ∀ i, 0 ≤ g i ∧ g i ≤ 17) :
    1 / 3 ≤ calculate_diversity_penalty g ∧
      calculate_diversity_penalty g < 1 ∧
      5 / 3 ≤ 5 * calculate_diversity_penalty g := by
  have hsub : Finset.univ.image g ⊆ Finset.Icc (0 : ℤ) 17 := by
    intro x hx
    rcases Finset.mem_image.mp hx with ⟨i, _, rfl⟩
    exact Finset.mem_Icc.mpr ⟨(h i).1, (h i).2⟩
  have hcard_le : uniqueCount g ≤ 18 := by
    have hc := Finset.card_le_card hsub
    rw [Int.card_Icc] at hc
    exact le_trans hc (by rfl)
  have hcard_ge : 1 ≤ uniqueCount g := by
    refine Finset.card_pos.mpr ⟨g ⟨0, by norm_num⟩, ?_⟩
    exact Finset.mem_image_of_mem g (Finset.mem_univ _)
  have h1 : (uniqueCount g : ℝ) ≤ 18 := by exact_mod_cast hcard_le
  have h2 : (1 : ℝ) ≤ (uniqueCount g : ℝ) := by exact_mod_cast hcard_ge
  have hfirst : (1 : ℝ) / 3 ≤ calculate_diversity_penalty g := by
    unfold calculate_diversity_penalty totalCells
    rw [le_div_iff₀ (by norm_num : (0 : ℝ) < ((27 : ℕ) : ℝ))]
    push_cast
    linarith
  have hsecond : calculate_diversity_penalty g < 1 := by
    unfold calculate_diversity_penalty totalCells
    rw [div_lt_one (by norm_num : (0 : ℝ) < ((27 : ℕ) : ℝ))]
    push_cast
    linarith
  exact ⟨hfirst, hsecond, by linarith⟩

/-- Witness for C10 at the all-zero grid (all codes in 0..17). -/
theorem c10_diversity_penalty_bounds_witness :
    1 / 3 ≤ calculate_diversity_penalty zeroGrid :=
  (c10_diversity_penalty_bounds zeroGrid (by decide)).1

end NCReactor
